import Mathlib

/-!
Verification of the security core of the `llm-remote` repository.

Shallow embedding, translated from the JavaScript sources:

* `src/crypto/cipher.js` — the `Cipher` class (authenticated encryption).
  Cryptographic primitives (PBKDF2, HMAC-SHA256, AES-256-GCM) are abstracted
  as a record of pure functions `CryptoPrims`; the byte-level structure of
  tokens (`hmac(32) ++ salt(32) ++ iv(16) ++ tag(16) ++ ciphertext`) and the
  order of checks in `decrypt` are translated faithfully.  Tokens are modelled
  at the decoded byte level: the source additionally applies base64 transport
  encoding, a bijection between byte sequences and their encodings that the
  claims are insensitive to.
* `src/auth/guard.js` — lockout bookkeeping and the guard middleware.
* the `SessionManager` class — authenticate / isAuthenticated / touch and the
  startup snapshot loader.
* the rate limiter (`checkRateLimit`).
* `src/scheduler/scheduler.js` — `logAudit` / `queryAudit`.

Bytes are modelled as `Nat` (values < 256 in real buffers), byte strings as
`List Nat`, timestamps (`Date.now()` milliseconds) as `Int`.
-/

/-! ## Cipher (src/crypto/cipher.js) -/

/-- Abstract interface to node's cryptographic primitives, as used by
`cipher.js`: `pbkdf2Sync password salt iterations keyLength digest`,
`createHmac('sha256', key).update(data).digest()`, and AES-256-GCM
encryption/decryption (`aesGcmDecrypt` returns `none` when the GCM tag check
in `decipher.final()` throws). -/
structure CryptoPrims where
  pbkdf2 : List Nat → List Nat → Nat → Nat → String → List Nat
  hmacSHA256 : List Nat → List Nat → List Nat
  aesGcmEncrypt : List Nat → List Nat → List Nat → List Nat × List Nat
  aesGcmDecrypt : List Nat → List Nat → List Nat → List Nat → Option (List Nat)

namespace Cipher

def KEY_LENGTH : Nat := 32

def IV_LENGTH : Nat := 16

def TAG_LENGTH : Nat := 16

def SALT_LENGTH : Nat := 32

/-- `Cipher.encrypt` (cipher.js lines 26–48), with the freshly drawn random
`salt` and `iv` passed in as explicit arguments.  Returns the decoded bytes of
the token: `hmac(32) ++ salt(32) ++ iv(16) ++ tag(16) ++ ciphertext`. -/
def encrypt (P : CryptoPrims) (masterKey hmacKey : List Nat)
    (salt iv plaintext : List Nat) : List Nat :=
  let key := P.pbkdf2 masterKey salt 1000 KEY_LENGTH "sha256"
  let encTag := P.aesGcmEncrypt key iv plaintext
  let payload := salt ++ (iv ++ (encTag.2 ++ encTag.1))
  let hmac := P.hmacSHA256 hmacKey payload
  hmac ++ payload

/-- The ways `Cipher.decrypt` can throw: the structural length check, the HMAC
comparison, and the GCM tag check inside `decipher.final()`. -/
inductive CipherError where
  | tooShort
  | hmacMismatch
  | gcmAuthFailure
  deriving DecidableEq, Repr

/-- `Cipher.decrypt` (cipher.js lines 50–84) on the decoded bytes of a token:
length check first, then HMAC verification over the whole payload, and only
then key re-derivation and AES-GCM decryption. -/
def decrypt (P : CryptoPrims) (masterKey hmacKey : List Nat)
    (data : List Nat) : Except CipherError (List Nat) :=
  if data.length < 32 + SALT_LENGTH + IV_LENGTH + TAG_LENGTH then
    .error .tooShort
  else
    let hmac := data.take 32
    let payload := data.drop 32
    let expectedHmac := P.hmacSHA256 hmacKey payload
    if hmac = expectedHmac then
      let salt := payload.take SALT_LENGTH
      let iv := (payload.drop SALT_LENGTH).take IV_LENGTH
      let tag := ((payload.drop SALT_LENGTH).drop IV_LENGTH).take TAG_LENGTH
      let ciphertext := ((payload.drop SALT_LENGTH).drop IV_LENGTH).drop TAG_LENGTH
      let key := P.pbkdf2 masterKey salt 1000 KEY_LENGTH "sha256"
      match P.aesGcmDecrypt key iv tag ciphertext with
      | some pt => .ok pt
      | none => .error .gcmAuthFailure
    else
      .error .hmacMismatch

end Cipher

/-- Flip bit `j` of a byte. -/
def flipByte (b j : Nat) : Nat := b ^^^ 2 ^ j

/-- Flip bit `j` of byte `i` of a byte string. -/
def flipBitAt (l : List Nat) (i j : Nat) : List Nat :=
  l.set i (flipByte (l.getD i 0) j)

/-- Concrete instantiation of the primitives, used to witness the
cipher theorems on computable inputs. -/
def toyPrims : CryptoPrims where
  pbkdf2 := fun _ salt _ len _ => List.replicate len (salt.foldl (· + ·) 0 % 256)
  hmacSHA256 := fun key data =>
    List.replicate 32 ((key.foldl (· + ·) 0 + data.foldl (· + ·) 3) % 256)
  aesGcmEncrypt := fun _ _ pt => (pt, List.replicate 16 9)
  aesGcmDecrypt := fun _ _ tag ct =>
    if tag = List.replicate 16 9 then some ct else none

/-! ## SessionManager (the `SessionManager` class backed by `sessions.json`) -/

/-- One session, as stored in the `sessions` map:
`{ authenticatedAt, lastActivity, workDir }`. -/
structure Session where
  authenticatedAt : Int
  lastActivity : Int
  workDir : String
  deriving DecidableEq, Repr

/-- The in-memory `sessions` table, keyed by the numeric user id. -/
abbrev SessionsMap : Type := Nat → Option Session

/-- The configuration values the security core reads
(`config.auth.authorizedUsers`, `config.auth.pin`, `config.auth.sessionTimeoutMs`,
`config.claude.defaultWorkDir`, `config.security.rateLimitPerMin`).  The PIN is
modelled as its byte sequence (`Buffer.from(String(config.auth.pin))`). -/
structure Config where
  authorizedUsers : List Nat
  pin : List Nat
  sessionTimeoutMs : Int
  defaultWorkDir : String
  rateLimitPerMin : Nat

namespace SessionManager

/-- Result of `SessionManager.authenticate`: `{ ok: true }` or
`{ ok: false, reason }`. -/
inductive AuthResult where
  | ok
  | unauthorizedUser
  | invalidPin
  deriving DecidableEq, Repr

/-- `SessionManager.authenticate(userId, pin)`: whitelist check first, then the
length check and constant-time byte comparison of the supplied PIN against the
configured one (`timingSafeEqual` on equal-length buffers is byte-for-byte
equality), and on match the session for `userId` is created or replaced with
`workDir` set to the configured default.  The snapshot write
(`#saveSessions`) has no effect on the in-memory table. -/
def authenticate (cfg : Config) (sm : SessionsMap) (userId : Nat) (pin : List Nat)
    (now : Int) : SessionsMap × AuthResult :=
  if userId ∈ cfg.authorizedUsers then
    if pin.length ≠ cfg.pin.length then
      (sm, .invalidPin)
    else if pin ≠ cfg.pin then
      (sm, .invalidPin)
    else
      (fun k => if k = userId then
          some { authenticatedAt := now, lastActivity := now, workDir := cfg.defaultWorkDir }
        else sm k, .ok)
  else
    (sm, .unauthorizedUser)

/-- `SessionManager.isAuthenticated(userId)`: lazily expires the session when
`now - lastActivity > sessionTimeoutMs` (deleting it from the table) and
otherwise reports it valid.  Returns the updated table and the boolean. -/
def isAuthenticated (cfg : Config) (sm : SessionsMap) (userId : Nat) (now : Int) :
    SessionsMap × Bool :=
  match sm userId with
  | none => (sm, false)
  | some s =>
    if now - s.lastActivity > cfg.sessionTimeoutMs then
      (fun k => if k = userId then none else sm k, false)
    else
      (sm, true)

/-- `SessionManager.touch(userId)`: refreshes `lastActivity` unconditionally
when a session exists, and does nothing otherwise.  The coalesced snapshot
write does not affect the in-memory table. -/
def touch (sm : SessionsMap) (userId : Nat) (now : Int) : SessionsMap :=
  match sm userId with
  | none => sm
  | some s => fun k => if k = userId then some { s with lastActivity := now } else sm k

/-- `SessionManager.#loadSessions`: iterates over the snapshot's entries and
restores each session whose `now - lastActivity` is within the timeout,
into the (initially empty) `sessions` table. -/
def loadGo (cfg : Config) (now : Int) : List (Nat × Session) → SessionsMap → SessionsMap
  | [], acc => acc
  | (uid, s) :: rest, acc =>
    loadGo cfg now rest
      (if now - s.lastActivity ≤ cfg.sessionTimeoutMs then
        fun k => if k = uid then some s else acc k
      else acc)

/-- Startup recovery: the table after `#loadSessions` runs on snapshot
`data`, starting from the empty `sessions` map. -/
def loadSessions (cfg : Config) (now : Int) (data : List (Nat × Session)) : SessionsMap :=
  loadGo cfg now data (fun _ => none)

end SessionManager

/-! ## AuthGuard (src/auth/guard.js) and the /auth command handler -/

/-- One entry of the `failedAttempts` map: `{ count, lastAttempt }`. -/
structure FailedRec where
  count : Nat
  lastAttempt : Int
  deriving DecidableEq, Repr

/-- The `failedAttempts` map, keyed by user id. -/
abbrev AttemptsMap : Type := Nat → Option FailedRec

def MAX_FAILED : Nat := 5

def BASE_LOCKOUT_MS : Int := 15 * 60 * 1000

def MAX_LOCKOUT_MS : Int := 24 * 60 * 60 * 1000

/-- `Math.ceil(num / den)` for a positive divisor, via floor division. -/
def ceilDiv (num den : Int) : Int := (num + den - 1) / den

/-- The current lockout window for a failure count that has reached the
threshold: `Math.min(BASE_LOCKOUT_MS * 2 ** Math.floor((count - MAX_FAILED) / MAX_FAILED), MAX_LOCKOUT_MS)`. -/
def lockoutMsFor (count : Nat) : Int :=
  min (BASE_LOCKOUT_MS * 2 ^ ((count - MAX_FAILED) / MAX_FAILED)) MAX_LOCKOUT_MS

/-- Outcome of the brute-force lockout check in `guardMiddleware`
(guard.js lines 46–60). -/
inductive GuardDecision where
  | locked (remainingMin : Int)
  | proceed
  deriving DecidableEq, Repr

/-- The lockout check of `guardMiddleware`: if a failure record exists with
`count >= MAX_FAILED` and the elapsed time since `lastAttempt` is still inside
the exponential-backoff window, reply with the remaining minutes
(`Math.ceil((lockoutMs - elapsed) / 60000)`) and stop; otherwise proceed
(the count is deliberately not reset). -/
def lockoutCheck (m : AttemptsMap) (userId : Nat) (now : Int) : GuardDecision :=
  match m userId with
  | some attempts =>
    if attempts.count ≥ MAX_FAILED then
      let lockoutMs := lockoutMsFor attempts.count
      let elapsed := now - attempts.lastAttempt
      if elapsed < lockoutMs then .locked (ceilDiv (lockoutMs - elapsed) 60000)
      else .proceed
    else .proceed
  | none => .proceed

/-- The guard middleware's effect on the `failedAttempts` map together with
its lockout decision: the middleware only reads the map (guard.js lines
46–60 contain no write), so the map comes back unchanged. -/
def guardStep (m : AttemptsMap) (userId : Nat) (now : Int) : AttemptsMap × GuardDecision :=
  (m, lockoutCheck m userId now)

/-- `recordFailedAuth(userId)` (guard.js lines 80–86): increments the count
(starting from `{ count: 0, lastAttempt: 0 }` when absent), stamps
`lastAttempt = Date.now()`, and returns the new count. -/
def recordFailedAuth (m : AttemptsMap) (userId : Nat) (now : Int) : AttemptsMap × Nat :=
  let attempts := (m userId).getD { count := 0, lastAttempt := 0 }
  let updated : FailedRec := { count := attempts.count + 1, lastAttempt := now }
  (fun k => if k = userId then some updated else m k, updated.count)

/-- `clearFailedAuth(userId)` (guard.js lines 88–90): deletes the record. -/
def clearFailedAuth (m : AttemptsMap) (userId : Nat) : AttemptsMap :=
  fun k => if k = userId then none else m k

/-- Outcome of one `/auth <pin>` request as seen by the sender. -/
inductive AuthOutcome where
  | silentIgnore
  | lockedOut (remainingMin : Int)
  | usage
  | success
  | invalidPin (attempt : Nat)
  deriving DecidableEq, Repr

/-- One `/auth <pin>` request in a private chat, as processed by
`guardMiddleware` followed by the `bot.command('auth')` handler:
whitelist check (silent drop), then the lockout check, then — since
`'/auth <pin>'` is allowed without a session — the handler calls
`SessionManager.authenticate` and feeds the outcome back through
`clearFailedAuth` / `recordFailedAuth`. -/
def authFlow (cfg : Config) (gm : AttemptsMap) (sm : SessionsMap) (userId : Nat)
    (pin : List Nat) (now : Int) : AttemptsMap × SessionsMap × AuthOutcome :=
  if userId ∈ cfg.authorizedUsers then
    match lockoutCheck gm userId now with
    | .locked r => (gm, sm, .lockedOut r)
    | .proceed =>
      if pin = [] then (gm, sm, .usage)
      else
        match SessionManager.authenticate cfg sm userId pin now with
        | (sm2, .ok) => (clearFailedAuth gm userId, sm2, .success)
        | (sm2, _) =>
          let rec2 := recordFailedAuth gm userId now
          (rec2.1, sm2, .invalidPin rec2.2)
  else (gm, sm, .silentIgnore)

/-- The failure count an identity currently carries (0 when no record). -/
def countOf (m : AttemptsMap) (userId : Nat) : Nat :=
  match m userId with
  | some a => a.count
  | none => 0

/-- Operations that touch the `failedAttempts` map over time. -/
inductive GOp where
  | guardAt (now : Int)
  | record (now : Int)

/-- Replay a sequence of guard checks and failure recordings. -/
def applyOps (userId : Nat) (m : AttemptsMap) : List GOp → AttemptsMap
  | [] => m
  | GOp.guardAt now :: rest => applyOps userId (guardStep m userId now).1 rest
  | GOp.record now :: rest => applyOps userId (recordFailedAuth m userId now).1 rest

/-- The number of `record` operations in a sequence. -/
def numRecords : List GOp → Nat
  | [] => 0
  | GOp.guardAt _ :: rest => numRecords rest
  | GOp.record _ :: rest => numRecords rest + 1

/-! ## RateLimiter (checkRateLimit) -/

/-- Result of `checkRateLimit`: `{ allowed: false, waitSec }` or
`{ allowed: true, remaining }`. -/
inductive RateResult where
  | refused (waitSec : Int)
  | allowed (remaining : Nat)
  deriving DecidableEq, Repr

/-- `checkRateLimit(userId)` acting on one identity's bucket of timestamps:
drop timestamps with `now - t >= 60000`; refuse (without recording) when the
retained count has reached `limit`, reporting
`Math.ceil((60000 - (now - oldest)) / 1000)` from the oldest retained
timestamp; otherwise record `now` and allow, reporting the remaining quota. -/
def checkRateLimit (limit : Nat) (bucket : List Int) (now : Int) : List Int × RateResult :=
  let ts := bucket.filter (fun t => now - t < 60000)
  if ts.length ≥ limit then
    (ts, .refused (ceilDiv (60000 - (now - ts.headD 0)) 1000))
  else
    (ts ++ [now], .allowed (limit - (ts.length + 1)))

/-- Run `checkRateLimit` over a sequence of request times, returning the final
bucket and the per-call results. -/
def runChecks (limit : Nat) (bucket : List Int) : List Int → List Int × List RateResult
  | [] => (bucket, [])
  | t :: ts =>
    let step := checkRateLimit limit bucket t
    let rest := runChecks limit step.1 ts
    (rest.1, step.2 :: rest.2)

/-! ## AuditLog (src/scheduler/scheduler.js) -/

/-- The plaintext of one audit line:
`{ t: timestamp, u: identityHash, a: action, d: data }`. -/
structure AuditEntry where
  t : String
  u : String
  a : String
  d : Option String
  deriving DecidableEq, Repr

/-- What `queryAudit` pushes onto its results for a matching entry. -/
structure AuditRecord where
  timestamp : String
  action : String
  data : Option String
  deriving DecidableEq, Repr

/-- Projection applied by `queryAudit` when collecting a matching entry. -/
def projEntry (e : AuditEntry) : AuditRecord :=
  { timestamp := e.t, action := e.a, data := e.d }

/-- The cipher interface as the audit module uses it, together with the JSON
serialization: `encrypt`/`decrypt` on strings and the keyed identity hash
(`cipher.hash`).  `decryptLine` composes `cipher.decrypt` and `JSON.parse`,
returning `none` when either throws (the `try/catch` in `queryAudit`). -/
structure AuditCipher where
  encrypt : String → String
  decrypt : String → Option String
  hash : String → String
  ser : AuditEntry → String
  deser : String → Option AuditEntry

/-- Decrypt-and-parse one audit line. -/
def AuditCipher.decryptLine (C : AuditCipher) (line : String) : Option AuditEntry :=
  (C.decrypt line).bind C.deser

/-- `logAudit(userId, action, data)`: builds the entry with the keyed hash of
the identity, encrypts it, and appends it as one line. -/
def logAudit (C : AuditCipher) (lines : List String) (userId tstamp action : String)
    (data : Option String) : List String :=
  lines ++ [C.encrypt (C.ser { t := tstamp, u := C.hash userId, a := action, d := data })]

/-- The backward scan of `queryAudit`: walk the (already reversed) lines,
skip lines that fail to decrypt or parse, keep entries whose `u` equals the
caller's hash until `limit` entries have been collected. -/
def queryGo (dec : String → Option AuditEntry) (userHash : String) :
    List String → Nat → List AuditRecord
  | [], _ => []
  | l :: ls, n =>
    if n = 0 then []
    else
      match dec l with
      | some e => if e.u = userHash then projEntry e :: queryGo dec userHash ls (n - 1)
                  else queryGo dec userHash ls n
      | none => queryGo dec userHash ls n

/-- `queryAudit(userId, limit)`: scan the file's lines from the most recent
backward, collecting at most `limit` entries whose `u` matches the caller's
keyed hash. -/
def queryAudit (C : AuditCipher) (lines : List String) (userId : String) (limit : Nat) :
    List AuditRecord :=
  queryGo C.decryptLine (C.hash userId) lines.reverse limit

/-- Iterate `/auth` requests (same identity and PIN) over a list of arrival
times, collecting the outcomes. -/
def authFlowSeq (cfg : Config) (gm : AttemptsMap) (sm : SessionsMap) (userId : Nat)
    (pin : List Nat) : List Int → AttemptsMap × SessionsMap × List AuthOutcome
  | [] => (gm, sm, [])
  | t :: ts =>
    let step := authFlow cfg gm sm userId pin t
    let rest := authFlowSeq cfg step.1 step.2.1 userId pin ts
    (rest.1, rest.2.1, step.2.2 :: rest.2.2)

/-! ## Concrete fixtures used by the witnesses -/

/-- A concrete configuration: whitelist `{42}`, PIN bytes `482913`,
10-minute session timeout. -/
def cfg42 : Config :=
  { authorizedUsers := [42], pin := [4, 8, 2, 9, 1, 3], sessionTimeoutMs := 600000,
    defaultWorkDir := "/home", rateLimitPerMin := 10 }

/-- A session table holding one session for identity 42, last active at 0. -/
def smWith42 : SessionsMap :=
  fun k => if k = 42 then
    some { authenticatedAt := 0, lastActivity := 0, workDir := "/home" } else none


/-- A small table-based audit cipher used to witness the audit theorems:
`"p1"` serializes the one interesting entry, `"enc1"` is its encryption, and
every other line fails to decrypt. -/
def toyAudit : AuditCipher where
  encrypt := fun p => if p = "p1" then "enc1" else "encX"
  decrypt := fun l => if l = "enc1" then some "p1" else none
  hash := fun u => if u = "42" then "h42" else "hX"
  ser := fun e => if e = { t := "t1", u := "h42", a := "act1", d := none } then "p1" else "pX"
  deser := fun p => if p = "p1" then some { t := "t1", u := "h42", a := "act1", d := none } else none

/-! ## List splitting helpers -/

theorem take_append_of_length {α : Type} (l₁ l₂ : List α) (n : Nat)
    (h : l₁.length = n) : (l₁ ++ l₂).take n = l₁ := by
  subst h; exact List.take_left l₁ l₂

theorem drop_append_of_length {α : Type} (l₁ l₂ : List α) (n : Nat)
    (h : l₁.length = n) : (l₁ ++ l₂).drop n = l₂ := by
  subst h; exact List.drop_left l₁ l₂

/-- C1: with the fresh salt and IV treated as arbitrary inputs of the right
length, and the cryptographic primitives satisfying their contracts at the
instances used (GCM tag length 16, HMAC output length 32, GCM decryption
inverting GCM encryption under the same key and IV), `decrypt` returns the
original plaintext on the token produced by `encrypt`. -/
theorem cipher_decrypt_encrypt (P : CryptoPrims) (mk hk salt iv pt key ct tag : List Nat)
    (hkey : key = P.pbkdf2 mk salt 1000 Cipher.KEY_LENGTH "sha256")
    (hct : ct = (P.aesGcmEncrypt key iv pt).1)
    (htagdef : tag = (P.aesGcmEncrypt key iv pt).2)
    (hsalt : salt.length = Cipher.SALT_LENGTH)
    (hiv : iv.length = Cipher.IV_LENGTH)
    (htag : tag.length = Cipher.TAG_LENGTH)
    (hhmac : (P.hmacSHA256 hk (salt ++ (iv ++ (tag ++ ct)))).length = 32)
    (hgcm : P.aesGcmDecrypt key iv tag ct = some pt) :
    Cipher.decrypt P mk hk (Cipher.encrypt P mk hk salt iv pt) = Except.ok pt := by
  have henc : Cipher.encrypt P mk hk salt iv pt =
      P.hmacSHA256 hk (salt ++ (iv ++ (tag ++ ct))) ++ (salt ++ (iv ++ (tag ++ ct))) := by
    simp only [Cipher.encrypt, ← hkey, ← hct, ← htagdef]
  rw [henc, Cipher.decrypt]
  have hlen : (P.hmacSHA256 hk (salt ++ (iv ++ (tag ++ ct))) ++ (salt ++ (iv ++ (tag ++ ct)))).length =
      96 + ct.length := by
    simp only [List.length_append, hhmac, hsalt, hiv, htag,
      Cipher.SALT_LENGTH, Cipher.IV_LENGTH, Cipher.TAG_LENGTH]
    omega
  rw [if_neg (by rw [hlen]; simp only [Cipher.SALT_LENGTH, Cipher.IV_LENGTH, Cipher.TAG_LENGTH]; omega)]
  rw [take_append_of_length _ _ 32 hhmac, drop_append_of_length _ _ 32 hhmac]
  rw [if_pos rfl]
  have h1 : (salt ++ (iv ++ (tag ++ ct))).take Cipher.SALT_LENGTH = salt :=
    take_append_of_length _ _ _ hsalt
  have h2 : (salt ++ (iv ++ (tag ++ ct))).drop Cipher.SALT_LENGTH = iv ++ (tag ++ ct) :=
    drop_append_of_length _ _ _ hsalt
  have h3 : (iv ++ (tag ++ ct)).take Cipher.IV_LENGTH = iv :=
    take_append_of_length _ _ _ hiv
  have h4 : (iv ++ (tag ++ ct)).drop Cipher.IV_LENGTH = tag ++ ct :=
    drop_append_of_length _ _ _ hiv
  have h5 : (tag ++ ct).take Cipher.TAG_LENGTH = tag :=
    take_append_of_length _ _ _ htag
  have h6 : (tag ++ ct).drop Cipher.TAG_LENGTH = ct :=
    drop_append_of_length _ _ _ htag
  simp only [h1, h2, h3, h4, h5, h6, ← hkey, hgcm]

theorem flipByte_ne (b j : Nat) : flipByte b j ≠ b := by
  intro h
  have h2 : (b ^^^ 2 ^ j) ^^^ b = b ^^^ b := congrArg (· ^^^ b) h
  rw [Nat.xor_self, Nat.xor_comm b (2 ^ j), Nat.xor_assoc, Nat.xor_self, Nat.xor_zero] at h2
  exact absurd h2 (Nat.pos_iff_ne_zero.mp (Nat.two_pow_pos j))

theorem getD_set_self (l : List Nat) (i x : Nat) (h : i < l.length) :
    (l.set i x).getD i 0 = x := by
  rw [List.getD_eq_getElem?_getD, List.getElem?_set_self h]
  rfl

theorem set_flip_ne (l : List Nat) (i j : Nat) (h : i < l.length) :
    l.set i (flipByte (l.getD i 0) j) ≠ l := by
  intro he
  have h2 : (l.set i (flipByte (l.getD i 0) j)).getD i 0 = l.getD i 0 :=
    congrArg (fun t => t.getD i 0) he
  rw [getD_set_self l i _ h] at h2
  exact flipByte_ne (l.getD i 0) j h2

/-- Splitting `flipBitAt` over an append when the flipped byte lies in the
left part. -/
theorem flipBitAt_append_left (l₁ l₂ : List Nat) (i j : Nat) (h : i < l₁.length) :
    flipBitAt (l₁ ++ l₂) i j = flipBitAt l₁ i j ++ l₂ := by
  unfold flipBitAt
  rw [List.getD_append l₁ l₂ 0 i h, List.set_append, if_pos h]

/-- Splitting `flipBitAt` over an append when the flipped byte lies in the
right part. -/
theorem flipBitAt_append_right (l₁ l₂ : List Nat) (i j : Nat) (h : l₁.length ≤ i) :
    flipBitAt (l₁ ++ l₂) i j = l₁ ++ flipBitAt l₂ (i - l₁.length) j := by
  unfold flipBitAt
  rw [List.getD_append_right l₁ l₂ 0 i h, List.set_append, if_neg (by omega)]

/-- C2: flipping any single bit of the decoded token produced by `encrypt`
makes `decrypt` fail with the integrity error from the keyed-hash comparison
(never a silently wrong plaintext), provided the keyed hash separates the
flipped payload from the original one (the HMAC second-preimage assumption,
needed only when the flip lands in the payload).  The conclusion holds with
the AES-GCM decryption primitive replaced by an arbitrary function `gcmDec`,
so the hash verification happens before any attempt to decrypt. -/
theorem cipher_flip_bit_integrity (P : CryptoPrims)
    (gcmDec : List Nat → List Nat → List Nat → List Nat → Option (List Nat))
    (mk hk salt iv pt key ct tag : List Nat) (i j : Nat)
    (hkey : key = P.pbkdf2 mk salt 1000 Cipher.KEY_LENGTH "sha256")
    (hct : ct = (P.aesGcmEncrypt key iv pt).1)
    (htagdef : tag = (P.aesGcmEncrypt key iv pt).2)
    (hsalt : salt.length = Cipher.SALT_LENGTH)
    (hiv : iv.length = Cipher.IV_LENGTH)
    (htag : tag.length = Cipher.TAG_LENGTH)
    (hhmac : (P.hmacSHA256 hk (salt ++ (iv ++ (tag ++ ct)))).length = 32)
    (hi : i < (Cipher.encrypt P mk hk salt iv pt).length)
    (hj : j < 8)
    (hsecondpre : 32 ≤ i →
      P.hmacSHA256 hk (flipBitAt (salt ++ (iv ++ (tag ++ ct))) (i - 32) j) ≠
        P.hmacSHA256 hk (salt ++ (iv ++ (tag ++ ct)))) :
    Cipher.decrypt { P with aesGcmDecrypt := gcmDec } mk hk
      (flipBitAt (Cipher.encrypt P mk hk salt iv pt) i j) =
      Except.error Cipher.CipherError.hmacMismatch := by
  have henc : Cipher.encrypt P mk hk salt iv pt =
      P.hmacSHA256 hk (salt ++ (iv ++ (tag ++ ct))) ++ (salt ++ (iv ++ (tag ++ ct))) := by
    simp only [Cipher.encrypt, ← hkey, ← hct, ← htagdef]
  set H := P.hmacSHA256 hk (salt ++ (iv ++ (tag ++ ct))) with hH
  set pl := salt ++ (iv ++ (tag ++ ct)) with hpl
  have hpllen : pl.length = 64 + ct.length := by
    simp only [hpl, List.length_append, hsalt, hiv, htag,
      Cipher.SALT_LENGTH, Cipher.IV_LENGTH, Cipher.TAG_LENGTH]
    omega
  rw [henc] at hi ⊢
  by_cases hcase : i < 32
  · -- flip lands in the stored HMAC
    have hiH : i < H.length := by omega
    rw [flipBitAt_append_left H pl i j hiH]
    rw [Cipher.decrypt]
    have hlen2 : (flipBitAt H i j ++ pl).length = 32 + (64 + ct.length) := by
      simp only [List.length_append, flipBitAt, List.length_set, hhmac, hpllen]
    rw [if_neg (by
      rw [hlen2]
      simp only [Cipher.SALT_LENGTH, Cipher.IV_LENGTH, Cipher.TAG_LENGTH]
      omega)]
    have hflen : (flipBitAt H i j).length = 32 := by
      simp only [flipBitAt, List.length_set, hhmac]
    rw [take_append_of_length _ _ 32 hflen, drop_append_of_length _ _ 32 hflen]
    rw [if_neg (by
      intro he
      exact set_flip_ne H i j hiH he)]
  · -- flip lands in the payload
    have hge : 32 ≤ i := by omega
    have hiH : H.length ≤ i := by omega
    rw [flipBitAt_append_right H pl i j hiH]
    rw [Cipher.decrypt]
    have hlen2 : (H ++ flipBitAt pl (i - H.length) j).length = 32 + (64 + ct.length) := by
      simp only [List.length_append, flipBitAt, List.length_set, hhmac, hpllen]
    rw [if_neg (by
      rw [hlen2]
      simp only [Cipher.SALT_LENGTH, Cipher.IV_LENGTH, Cipher.TAG_LENGTH]
      omega)]
    rw [take_append_of_length _ _ 32 hhmac, drop_append_of_length _ _ 32 hhmac]
    rw [if_neg (by
      intro he
      have hH32 : H.length = 32 := hhmac
      rw [hH32] at he
      exact hsecondpre hge he.symm)]

/-- Witness for C1 on concrete toy primitives. -/
theorem cipher_decrypt_encrypt_witness :
    Cipher.decrypt toyPrims [1] [2]
      (Cipher.encrypt toyPrims [1] [2] (List.replicate 32 1) (List.replicate 16 2) [104, 105]) =
      Except.ok [104, 105] :=
  cipher_decrypt_encrypt toyPrims [1] [2] (List.replicate 32 1) (List.replicate 16 2)
    [104, 105]
    (toyPrims.pbkdf2 [1] (List.replicate 32 1) 1000 Cipher.KEY_LENGTH "sha256")
    [104, 105] (List.replicate 16 9)
    rfl rfl rfl (by decide) (by decide) (by decide) (by decide) (by decide)

/-- Witness for C2 on concrete toy primitives: bit 0 of byte 0 flipped, with
the GCM decryption primitive replaced by a function that never succeeds. -/
theorem cipher_flip_bit_integrity_witness :
    Cipher.decrypt { toyPrims with aesGcmDecrypt := fun _ _ _ _ => none } [1] [2]
      (flipBitAt (Cipher.encrypt toyPrims [1] [2] (List.replicate 32 1)
        (List.replicate 16 2) [104, 105]) 0 0) =
      Except.error Cipher.CipherError.hmacMismatch :=
  cipher_flip_bit_integrity toyPrims (fun _ _ _ _ => none) [1] [2]
    (List.replicate 32 1) (List.replicate 16 2) [104, 105]
    (toyPrims.pbkdf2 [1] (List.replicate 32 1) 1000 Cipher.KEY_LENGTH "sha256")
    [104, 105] (List.replicate 16 9) 0 0
    rfl rfl rfl (by decide) (by decide) (by decide) (by decide) (by decide) (by decide)
    (fun h => absurd h (by decide))

/-! ## Theorems about SessionManager -/

/-- C4: `authenticate` returns `unauthorizedUser` for every identity outside
the whitelist regardless of the supplied PIN (so before any PIN comparison),
returns `invalidPin` on PIN mismatch leaving the session table unchanged, and
on PIN match creates or replaces the session with `workDir` set to the
configured default. -/
theorem sessionManager_authenticate_spec (cfg : Config) (sm : SessionsMap)
    (userId : Nat) (now : Int) :
    (∀ pin, userId ∉ cfg.authorizedUsers →
      SessionManager.authenticate cfg sm userId pin now = (sm, .unauthorizedUser)) ∧
    (∀ pin, userId ∈ cfg.authorizedUsers → pin ≠ cfg.pin →
      SessionManager.authenticate cfg sm userId pin now = (sm, .invalidPin)) ∧
    (userId ∈ cfg.authorizedUsers →
      SessionManager.authenticate cfg sm userId cfg.pin now =
        (fun k => if k = userId then
            some { authenticatedAt := now, lastActivity := now, workDir := cfg.defaultWorkDir }
          else sm k, .ok)) := by
  refine ⟨fun pin hwl => ?_, fun pin hwl hne => ?_, fun hwl => ?_⟩
  · simp only [SessionManager.authenticate, if_neg hwl]
  · simp only [SessionManager.authenticate, if_pos hwl]
    by_cases hlen : pin.length = cfg.pin.length
    · rw [if_neg (by simp [hlen]), if_pos hne]
    · rw [if_pos hlen]
  · simp only [SessionManager.authenticate, if_pos hwl]
    rw [if_neg (by simp), if_neg (by simp)]

/-- Witness for C4: whitelist `{42}`, PIN bytes `[4, 8, 2, 9, 1, 3]`. -/
theorem sessionManager_authenticate_spec_witness :
    (SessionManager.authenticate
      { authorizedUsers := [42], pin := [4, 8, 2, 9, 1, 3], sessionTimeoutMs := 600000,
        defaultWorkDir := "/home", rateLimitPerMin := 10 }
      (fun _ => none) 7 [4, 8, 2, 9, 1, 3] 0 = (fun _ => none, .unauthorizedUser)) ∧
    (SessionManager.authenticate
      { authorizedUsers := [42], pin := [4, 8, 2, 9, 1, 3], sessionTimeoutMs := 600000,
        defaultWorkDir := "/home", rateLimitPerMin := 10 }
      (fun _ => none) 42 [0, 0, 0, 0, 0, 0] 0 = (fun _ => none, .invalidPin)) ∧
    (SessionManager.authenticate
      { authorizedUsers := [42], pin := [4, 8, 2, 9, 1, 3], sessionTimeoutMs := 600000,
        defaultWorkDir := "/home", rateLimitPerMin := 10 }
      (fun _ => none) 42 [4, 8, 2, 9, 1, 3] 0 =
      (fun k => if k = 42 then
          some { authenticatedAt := 0, lastActivity := 0, workDir := "/home" }
        else none, .ok)) :=
  ⟨(sessionManager_authenticate_spec _ _ 7 0).1 _ (by decide),
   (sessionManager_authenticate_spec _ _ 42 0).2.1 _ (by decide) (by decide),
   (sessionManager_authenticate_spec _ _ 42 0).2.2 (by decide)⟩

/-- C5: `isAuthenticated` returns true iff a session exists and
`now - lastActivity <= sessionTimeoutMs`; when the timeout is exceeded the
session is deleted as a side effect; a session is authenticated 1s before its
timeout elapses and not authenticated 1s after. -/
theorem sessionManager_isAuthenticated_spec (cfg : Config) (sm : SessionsMap)
    (userId : Nat) (now : Int) :
    ((SessionManager.isAuthenticated cfg sm userId now).2 = true ↔
      ∃ s, sm userId = some s ∧ now - s.lastActivity ≤ cfg.sessionTimeoutMs) ∧
    (∀ s, sm userId = some s → now - s.lastActivity > cfg.sessionTimeoutMs →
      (SessionManager.isAuthenticated cfg sm userId now).1 userId = none) ∧
    (∀ s, sm userId = some s →
      (SessionManager.isAuthenticated cfg sm userId
        (s.lastActivity + cfg.sessionTimeoutMs - 1000)).2 = true ∧
      (SessionManager.isAuthenticated cfg sm userId
        (s.lastActivity + cfg.sessionTimeoutMs + 1000)).2 = false) := by
  refine ⟨?_, fun s hs hexp => ?_, fun s hs => ⟨?_, ?_⟩⟩
  · cases hs : sm userId with
    | none => simp [SessionManager.isAuthenticated, hs]
    | some s =>
      by_cases h : now - s.lastActivity > cfg.sessionTimeoutMs
      · simp only [SessionManager.isAuthenticated, hs, if_pos h]
        constructor
        · intro hft
          exact absurd hft (by simp)
        · rintro ⟨s2, he, hc⟩
          injection he with he2
          subst he2
          exact absurd hc (by omega)
      · simp only [SessionManager.isAuthenticated, hs, if_neg h]
        exact ⟨fun _ => ⟨s, rfl, by omega⟩, fun _ => trivial⟩
  · simp only [SessionManager.isAuthenticated, hs, if_pos hexp]
    simp
  · simp only [SessionManager.isAuthenticated, hs]
    rw [if_neg (by omega)]
  · simp only [SessionManager.isAuthenticated, hs]
    rw [if_pos (by omega)]

/-- Witness for C5: a session last active at time 0 with a 10-minute
timeout, expired at 600001ms and probed 1s before/after the timeout. -/
theorem sessionManager_isAuthenticated_spec_witness :
    ((SessionManager.isAuthenticated cfg42 smWith42 42 600001).1 42 = none) ∧
    ((SessionManager.isAuthenticated cfg42 smWith42 42 (0 + 600000 - 1000)).2 = true) ∧
    ((SessionManager.isAuthenticated cfg42 smWith42 42 (0 + 600000 + 1000)).2 = false) :=
  ⟨(sessionManager_isAuthenticated_spec cfg42 smWith42 42 600001).2.1
      { authenticatedAt := 0, lastActivity := 0, workDir := "/home" } (by decide) (by decide),
   ((sessionManager_isAuthenticated_spec cfg42 smWith42 42 (0 + 600000 - 1000)).2.2
      { authenticatedAt := 0, lastActivity := 0, workDir := "/home" } (by decide)).1,
   ((sessionManager_isAuthenticated_spec cfg42 smWith42 42 (0 + 600000 + 1000)).2.2
      { authenticatedAt := 0, lastActivity := 0, workDir := "/home" } (by decide)).2⟩

/-- C10: `touch` leaves the table unchanged when no session exists; otherwise
it sets `lastActivity := now` unconditionally (other identities untouched),
without checking expiry — so an already-expired but never-observed session
becomes valid again after `touch`. -/
theorem sessionManager_touch_spec (cfg : Config) (sm : SessionsMap)
    (userId : Nat) (now : Int) :
    (sm userId = none → SessionManager.touch sm userId now = sm) ∧
    (∀ s, sm userId = some s →
      SessionManager.touch sm userId now userId = some { s with lastActivity := now } ∧
      (∀ k, k ≠ userId → SessionManager.touch sm userId now k = sm k)) ∧
    (∀ s, sm userId = some s → now - s.lastActivity > cfg.sessionTimeoutMs →
      0 ≤ cfg.sessionTimeoutMs →
      (SessionManager.isAuthenticated cfg (SessionManager.touch sm userId now)
        userId now).2 = true) := by
  refine ⟨fun hnone => ?_, fun s hs => ⟨?_, fun k hk => ?_⟩, fun s hs hexp hT => ?_⟩
  · unfold SessionManager.touch
    rw [hnone]
  · simp only [SessionManager.touch, hs]
    simp
  · simp only [SessionManager.touch, hs]
    simp [hk]
  · have htouch : SessionManager.touch sm userId now userId =
        some { s with lastActivity := now } := by
      simp only [SessionManager.touch, hs]
      simp
    simp only [SessionManager.isAuthenticated, htouch]
    rw [if_neg (by simp; omega)]

/-- Witness for C10: a session expired for 9 minutes is revived by `touch`. -/
theorem sessionManager_touch_spec_witness :
    (SessionManager.isAuthenticated cfg42
      (SessionManager.touch smWith42 42 1140000) 42 1140000).2 = true :=
  (sessionManager_touch_spec cfg42 smWith42 42 1140000).2.2
    { authenticatedAt := 0, lastActivity := 0, workDir := "/home" }
    (by decide) (by decide) (by decide)

/-- Lookup characterization of the snapshot loader, for snapshots without
duplicate identities: entries within the timeout are restored, entries outside
it (and identities absent from the snapshot) fall through to the accumulator. -/
theorem loadGo_lookup (cfg : Config) (now : Int) :
    ∀ (l : List (Nat × Session)) (acc : SessionsMap), (l.map Prod.fst).Nodup →
    (∀ uid s, (uid, s) ∈ l → now - s.lastActivity ≤ cfg.sessionTimeoutMs →
      SessionManager.loadGo cfg now l acc uid = some s) ∧
    (∀ uid s, (uid, s) ∈ l → ¬(now - s.lastActivity ≤ cfg.sessionTimeoutMs) →
      SessionManager.loadGo cfg now l acc uid = acc uid) ∧
    (∀ uid, uid ∉ l.map Prod.fst → SessionManager.loadGo cfg now l acc uid = acc uid) := by
  intro l
  induction l with
  | nil =>
    intro acc _
    refine ⟨fun uid s hm => absurd hm (List.not_mem_nil _),
            fun uid s hm => absurd hm (List.not_mem_nil _),
            fun uid _ => rfl⟩
  | cons e rest ih =>
    intro acc hnd
    obtain ⟨uid0, s0⟩ := e
    rw [List.map_cons] at hnd
    have hnd2 : (rest.map Prod.fst).Nodup := (List.nodup_cons.mp hnd).2
    have hhead : uid0 ∉ rest.map Prod.fst := (List.nodup_cons.mp hnd).1
    refine ⟨fun uid s hm hok => ?_, fun uid s hm hexp => ?_, fun uid hm => ?_⟩
    · rw [SessionManager.loadGo]
      rcases List.mem_cons.mp hm with heq | hrest
      · injection heq with h1 h2
        subst h1
        subst h2
        rw [if_pos hok]
        rw [(ih (fun k => if k = uid then some s else acc k) hnd2).2.2 uid hhead]
        simp
      · exact (ih _ hnd2).1 uid s hrest hok
    · rw [SessionManager.loadGo]
      rcases List.mem_cons.mp hm with heq | hrest
      · injection heq with h1 h2
        subst h1
        subst h2
        rw [if_neg hexp]
        exact (ih acc hnd2).2.2 uid hhead
      · have huid : uid ≠ uid0 := by
          intro he
          subst he
          exact hhead (List.mem_map.mpr ⟨(uid, s), hrest, rfl⟩)
        by_cases hok0 : now - s0.lastActivity ≤ cfg.sessionTimeoutMs
        · rw [if_pos hok0]
          rw [(ih (fun k => if k = uid0 then some s0 else acc k) hnd2).2.1 uid s hrest hexp]
          simp [huid]
        · rw [if_neg hok0]
          exact (ih acc hnd2).2.1 uid s hrest hexp
    · rw [SessionManager.loadGo]
      rw [List.map_cons] at hm
      have huid : uid ≠ uid0 := fun he => hm (he ▸ List.mem_cons_self _ _)
      have hrest : uid ∉ rest.map Prod.fst := fun hc => hm (List.mem_cons_of_mem _ hc)
      by_cases hok0 : now - s0.lastActivity ≤ cfg.sessionTimeoutMs
      · rw [if_pos hok0]
        rw [(ih (fun k => if k = uid0 then some s0 else acc k) hnd2).2.2 uid hrest]
        simp [huid]
      · rw [if_neg hok0]
        exact (ih acc hnd2).2.2 uid hrest

/-- C8: startup recovery restores exactly the snapshot sessions whose
`now - lastActivity` is within the timeout and drops the rest; in particular a
snapshot with one session at `now - T/2` and one at `now - 2T` restores only
the first. -/
theorem sessionManager_loadSessions_spec (cfg : Config) (now : Int)
    (data : List (Nat × Session)) (hnd : (data.map Prod.fst).Nodup) :
    (∀ uid s, (uid, s) ∈ data → now - s.lastActivity ≤ cfg.sessionTimeoutMs →
      SessionManager.loadSessions cfg now data uid = some s) ∧
    (∀ uid s, (uid, s) ∈ data → ¬(now - s.lastActivity ≤ cfg.sessionTimeoutMs) →
      SessionManager.loadSessions cfg now data uid = none) ∧
    (∀ uid, uid ∉ data.map Prod.fst → SessionManager.loadSessions cfg now data uid = none) ∧
    (0 < cfg.sessionTimeoutMs → ∀ a1 a2 w1 w2,
      SessionManager.loadSessions cfg now
        [(1, { authenticatedAt := a1, lastActivity := now - cfg.sessionTimeoutMs / 2, workDir := w1 }),
         (2, { authenticatedAt := a2, lastActivity := now - 2 * cfg.sessionTimeoutMs, workDir := w2 })] 1 =
        some { authenticatedAt := a1, lastActivity := now - cfg.sessionTimeoutMs / 2, workDir := w1 } ∧
      SessionManager.loadSessions cfg now
        [(1, { authenticatedAt := a1, lastActivity := now - cfg.sessionTimeoutMs / 2, workDir := w1 }),
         (2, { authenticatedAt := a2, lastActivity := now - 2 * cfg.sessionTimeoutMs, workDir := w2 })] 2 =
        none) := by
  refine ⟨fun uid s hm hok => ?_, fun uid s hm hexp => ?_, fun uid hm => ?_,
    fun hT a1 a2 w1 w2 => ?_⟩
  · exact (loadGo_lookup cfg now data (fun _ => none) hnd).1 uid s hm hok
  · exact (loadGo_lookup cfg now data (fun _ => none) hnd).2.1 uid s hm hexp
  · exact (loadGo_lookup cfg now data (fun _ => none) hnd).2.2 uid hm
  · have hc1 : now - (now - cfg.sessionTimeoutMs / 2) ≤ cfg.sessionTimeoutMs := by omega
    have hc2 : ¬(now - (now - 2 * cfg.sessionTimeoutMs) ≤ cfg.sessionTimeoutMs) := by omega
    constructor
    · simp only [SessionManager.loadSessions, SessionManager.loadGo]
      rw [if_pos hc1, if_neg hc2]
      simp
    · simp only [SessionManager.loadSessions, SessionManager.loadGo]
      rw [if_pos hc1, if_neg hc2]
      simp

/-- Witness for C8: a 10-minute timeout, one session 5 minutes old and one 20
minutes old; only the first is restored. -/
theorem sessionManager_loadSessions_spec_witness :
    (SessionManager.loadSessions cfg42 1200000
      [(1, { authenticatedAt := 0, lastActivity := 1200000 - 600000 / 2, workDir := "/a" }),
       (2, { authenticatedAt := 0, lastActivity := 1200000 - 2 * 600000, workDir := "/b" })] 1 =
      some { authenticatedAt := 0, lastActivity := 1200000 - 600000 / 2, workDir := "/a" }) ∧
    (SessionManager.loadSessions cfg42 1200000
      [(1, { authenticatedAt := 0, lastActivity := 1200000 - 600000 / 2, workDir := "/a" }),
       (2, { authenticatedAt := 0, lastActivity := 1200000 - 2 * 600000, workDir := "/b" })] 2 =
      none) :=
  (sessionManager_loadSessions_spec cfg42 1200000 [] (by decide)).2.2.2 (by decide) 0 0 "/a" "/b"

/-- The count stored by `recordFailedAuth` is the old count plus one. -/
theorem recordFailedAuth_lookup (m : AttemptsMap) (userId : Nat) (now : Int) :
    (recordFailedAuth m userId now).1 userId =
      some { count := countOf m userId + 1, lastAttempt := now } := by
  simp only [recordFailedAuth, countOf]
  cases m userId <;> simp

/-- Replaying guard checks and failure recordings changes the count exactly by
the number of recordings. -/
theorem applyOps_count (userId : Nat) :
    ∀ (ops : List GOp) (m : AttemptsMap),
      countOf (applyOps userId m ops) userId = countOf m userId + numRecords ops := by
  intro ops
  induction ops with
  | nil => intro m; rfl
  | cons op rest ih =>
    intro m
    cases op with
    | guardAt now =>
      rw [applyOps, numRecords, ih]
      rfl
    | record now =>
      rw [applyOps, numRecords, ih]
      have h2 : countOf (recordFailedAuth m userId now).1 userId = countOf m userId + 1 := by
        rw [countOf, recordFailedAuth_lookup]
      rw [h2]
      omega

/-- C9: the failure count changes only through `recordFailedAuth` (which adds
one, stamps `lastAttempt`, and returns the new count) and `clearFailedAuth`
(which deletes the record); the guard's lockout check leaves the map
untouched at every instant, so over any interleaving of guard checks and
recordings the count grows by exactly the number of recordings. -/
theorem failedAttempts_monotonic (m : AttemptsMap) (userId : Nat) (now : Int) :
    ((recordFailedAuth m userId now).2 = countOf m userId + 1) ∧
    ((recordFailedAuth m userId now).1 userId =
      some { count := countOf m userId + 1, lastAttempt := now }) ∧
    (∀ k, k ≠ userId → (recordFailedAuth m userId now).1 k = m k) ∧
    (clearFailedAuth m userId userId = none) ∧
    (∀ k, k ≠ userId → clearFailedAuth m userId k = m k) ∧
    (∀ t, (guardStep m userId t).1 = m) ∧
    (∀ ops, countOf (applyOps userId m ops) userId = countOf m userId + numRecords ops) := by
  refine ⟨?_, recordFailedAuth_lookup m userId now, fun k hk => ?_, ?_, fun k hk => ?_,
    fun t => rfl, fun ops => applyOps_count userId ops m⟩
  · simp only [recordFailedAuth, countOf]
    cases m userId <;> simp
  · simp only [recordFailedAuth]
    simp [hk]
  · simp only [clearFailedAuth]
    simp
  · simp only [clearFailedAuth]
    simp [hk]

/-- Witness for C9: two recordings and a guard check on an initially empty
map leave identity 7 with count 2. -/
theorem failedAttempts_monotonic_witness :
    ((recordFailedAuth (fun _ => none) 7 1000).2 = 1) ∧
    (clearFailedAuth (fun _ => none) 7 7 = none) ∧
    (countOf (applyOps 7 (fun _ => none)
      [GOp.record 1000, GOp.guardAt 2000, GOp.record 3000]) 7 = 2) :=
  ⟨(failedAttempts_monotonic (fun _ => none) 7 1000).1,
   (failedAttempts_monotonic (fun _ => none) 7 1000).2.2.2.1,
   (failedAttempts_monotonic (fun _ => none) 7 1000).2.2.2.2.2.2
     [GOp.record 1000, GOp.guardAt 2000, GOp.record 3000]⟩

/-- Running the limiter over calls that all lie inside one 60-second window
(relative to everything already in the bucket) allows every call and appends
each timestamp, as long as the total stays within the limit. -/
theorem runChecks_all_allowed (limit : Nat) :
    ∀ (times bucket : List Int),
      (∀ u ∈ bucket ++ times, ∀ v ∈ bucket ++ times, u - v < 60000) →
      bucket.length + times.length ≤ limit →
      (runChecks limit bucket times).1 = bucket ++ times ∧
      ∀ r ∈ (runChecks limit bucket times).2, ∃ n, r = RateResult.allowed n := by
  intro times
  induction times with
  | nil =>
    intro bucket _ _
    exact ⟨by simp [runChecks], fun r hr => absurd hr (List.not_mem_nil _)⟩
  | cons t ts ih =>
    intro bucket hw hl
    have hfilter : bucket.filter (fun u => decide (t - u < 60000)) = bucket := by
      apply List.filter_eq_self.mpr
      intro u hu
      exact decide_eq_true (hw t (List.mem_append_right _ (List.mem_cons_self _ _))
        u (List.mem_append_left _ hu))
    have hblen : bucket.length < limit := by
      have := List.length_cons t ts ▸ hl
      omega
    have hstep : checkRateLimit limit bucket t = (bucket ++ [t], .allowed (limit - (bucket.length + 1))) := by
      rw [checkRateLimit]
      simp only [hfilter]
      rw [if_neg (by omega)]
    have hw2 : ∀ u ∈ (bucket ++ [t]) ++ ts, ∀ v ∈ (bucket ++ [t]) ++ ts, u - v < 60000 := by
      intro u hu v hv
      rw [List.append_assoc] at hu hv
      exact hw u hu v hv
    have hl2 : (bucket ++ [t]).length + ts.length ≤ limit := by
      simp only [List.length_append, List.length_singleton]
      have := List.length_cons t ts ▸ hl
      omega
    have hrec := ih (bucket ++ [t]) hw2 hl2
    rw [runChecks]
    refine ⟨?_, ?_⟩
    · simp only [hstep, hrec.1, List.append_assoc, List.singleton_append]
    · intro r hr
      simp only [hstep] at hr
      rcases List.mem_cons.mp hr with heq | hrest
      · exact ⟨limit - (bucket.length + 1), heq⟩
      · exact hrec.2 r hrest

/-- C6: one `checkRateLimit` call first discards timestamps older than the
60-second window; with the retained count at or above the limit it refuses
without recording, reporting `waitSec` from the oldest retained timestamp;
below the limit it records `now` and allows with the remaining quota.
Consequently `limit` calls inside one window are all allowed, the
`(limit+1)`-th is refused, and once the oldest timestamp has left the window a
call is allowed again. -/
theorem rateLimiter_check_spec (limit : Nat) :
    (∀ (bucket : List Int) (now : Int), 1 ≤ limit →
      limit ≤ (bucket.filter (fun t => now - t < 60000)).length →
      checkRateLimit limit bucket now =
        (bucket.filter (fun t => now - t < 60000),
         .refused (ceilDiv (60000 - (now - (bucket.filter (fun t => now - t < 60000)).headD 0)) 1000))) ∧
    (∀ (bucket : List Int) (now : Int),
      (bucket.filter (fun t => now - t < 60000)).length < limit →
      checkRateLimit limit bucket now =
        (bucket.filter (fun t => now - t < 60000) ++ [now],
         .allowed (limit - ((bucket.filter (fun t => now - t < 60000)).length + 1)))) ∧
    (∀ times : List Int, times.length = limit →
      (∀ u ∈ times, ∀ v ∈ times, u - v < 60000) →
      ((runChecks limit [] times).1 = times ∧
       (∀ r ∈ (runChecks limit [] times).2, ∃ n, r = RateResult.allowed n) ∧
       (∀ t2, (∀ u ∈ times, t2 - u < 60000) →
          ∃ w, checkRateLimit limit times t2 = (times, RateResult.refused w)) ∧
       (∀ t2, 1 ≤ limit → 60000 ≤ t2 - times.headD 0 →
          ∃ n b, checkRateLimit limit times t2 = (b, RateResult.allowed n)))) := by
  refine ⟨fun bucket now hpos hge => ?_, fun bucket now hlt => ?_,
    fun times hlen hw => ⟨?_, ?_, fun t2 hin => ?_, fun t2 hpos hout => ?_⟩⟩
  · rw [checkRateLimit]
    rw [if_pos (by omega)]
  · rw [checkRateLimit]
    rw [if_neg (by omega)]
  · exact (runChecks_all_allowed limit times [] (by simpa using hw) (by simp [hlen])).1
  · exact (runChecks_all_allowed limit times [] (by simpa using hw) (by simp [hlen])).2
  · have hfilter : times.filter (fun u => decide (t2 - u < 60000)) = times :=
      List.filter_eq_self.mpr (fun u hu => decide_eq_true (hin u hu))
    refine ⟨ceilDiv (60000 - (t2 - times.headD 0)) 1000, ?_⟩
    rw [checkRateLimit]
    simp only [hfilter]
    rw [if_pos (by omega)]
  · cases times with
    | nil => simp at hlen; omega
    | cons hd tl =>
      have hout2 : 60000 ≤ t2 - hd := by simpa using hout
      have hhd : decide (t2 - hd < 60000) = false := by
        simp only [decide_eq_false_iff_not]
        omega
      have hfl := List.length_filter_le (fun u => decide (t2 - u < 60000)) tl
      have htl : tl.length + 1 = limit := by
        simpa using hlen
      refine ⟨limit - ((tl.filter (fun u => decide (t2 - u < 60000))).length + 1),
        tl.filter (fun u => decide (t2 - u < 60000)) ++ [t2], ?_⟩
      rw [checkRateLimit]
      simp only [List.filter_cons, hhd, Bool.false_eq_true, if_false, List.headD_cons]
      rw [if_neg (by omega)]

/-- Witness for C6 with limit 2: two calls at times 0, a third call at 1ms is
refused with a 60s wait, and a call at 60000ms (once the oldest timestamp has
left the window) is allowed again. -/
theorem rateLimiter_check_spec_witness :
    (checkRateLimit 2 [0, 0] 1 = ([0, 0], RateResult.refused 60)) ∧
    (checkRateLimit 2 [] 0 = ([0], RateResult.allowed 1)) ∧
    ((runChecks 2 [] [0, 0]).1 = [0, 0]) ∧
    (∃ w, checkRateLimit 2 [0, 0] 1 = ([0, 0], RateResult.refused w)) ∧
    (∃ n b, checkRateLimit 2 [0, 0] 60000 = (b, RateResult.allowed n)) :=
  ⟨(rateLimiter_check_spec 2).1 [0, 0] 1 (by decide) (by decide),
   (rateLimiter_check_spec 2).2.1 [] 0 (by decide),
   ((rateLimiter_check_spec 2).2.2 [0, 0] rfl (by decide)).1,
   ((rateLimiter_check_spec 2).2.2 [0, 0] rfl (by decide)).2.2.1 1 (by decide),
   ((rateLimiter_check_spec 2).2.2 [0, 0] rfl (by decide)).2.2.2 60000 (by decide) (by decide)⟩

/-- The count returned by `recordFailedAuth` is the old count plus one. -/
theorem recordFailedAuth_snd (m : AttemptsMap) (userId : Nat) (now : Int) :
    (recordFailedAuth m userId now).2 = countOf m userId + 1 := by
  simp only [recordFailedAuth, countOf]
  cases m userId <;> simp

/-- The stored count after `recordFailedAuth` is the old count plus one. -/
theorem countOf_record (m : AttemptsMap) (userId : Nat) (now : Int) :
    countOf (recordFailedAuth m userId now).1 userId = countOf m userId + 1 := by
  rw [countOf, recordFailedAuth_lookup]

/-- A failed `/auth` attempt while the failure count is below the threshold:
the guard lets it through, authentication fails, and the failure is recorded. -/
theorem authFlow_fail_step (cfg : Config) (gm : AttemptsMap) (sm : SessionsMap)
    (userId : Nat) (pin : List Nat) (now : Int)
    (hwl : userId ∈ cfg.authorizedUsers) (hne : pin ≠ []) (hwrong : pin ≠ cfg.pin)
    (hcount : countOf gm userId < MAX_FAILED) :
    authFlow cfg gm sm userId pin now =
      ((recordFailedAuth gm userId now).1, sm, .invalidPin (countOf gm userId + 1)) := by
  have hlk : lockoutCheck gm userId now = .proceed := by
    rw [lockoutCheck]
    cases h : gm userId with
    | none => rfl
    | some a =>
      have ha : a.count < MAX_FAILED := by
        have : countOf gm userId = a.count := by rw [countOf, h]
        omega
      simp only []
      rw [if_neg (by omega)]
  have hauth : SessionManager.authenticate cfg sm userId pin now = (sm, .invalidPin) := by
    rw [SessionManager.authenticate, if_pos hwl]
    by_cases hlen : pin.length = cfg.pin.length
    · rw [if_neg (by simp [hlen]), if_pos hwrong]
    · rw [if_pos hlen]
  rw [authFlow, if_pos hwl, hlk]
  simp only [if_neg hne, hauth, recordFailedAuth_snd]

/-- C3: a request from a locked-out identity (count at the threshold, still
inside the `min(15min * 2^floor((count-5)/5), 24h)` window anchored at
`lastAttempt`) is rejected with at least one remaining minute reported and no
state change; five consecutive invalid PINs lock the identity so that the
sixth attempt — even with the correct PIN — is rejected with a positive wait;
once the window has elapsed a correct PIN succeeds and deletes the failure
record. -/
theorem authGuard_lockout_spec (cfg : Config) (gm : AttemptsMap) (sm : SessionsMap)
    (userId : Nat) (now : Int) :
    (∀ pin rec, userId ∈ cfg.authorizedUsers → gm userId = some rec →
      MAX_FAILED ≤ rec.count → now - rec.lastAttempt < lockoutMsFor rec.count →
      authFlow cfg gm sm userId pin now =
        (gm, sm, .lockedOut (ceilDiv (lockoutMsFor rec.count - (now - rec.lastAttempt)) 60000)) ∧
      1 ≤ ceilDiv (lockoutMsFor rec.count - (now - rec.lastAttempt)) 60000) ∧
    (∀ wrongPin t1 t2 t3 t4 t5, userId ∈ cfg.authorizedUsers → gm userId = none →
      wrongPin ≠ [] → wrongPin ≠ cfg.pin → cfg.pin ≠ [] → now - t5 < BASE_LOCKOUT_MS →
      (authFlowSeq cfg gm sm userId wrongPin [t1, t2, t3, t4, t5]).2.2 =
        [.invalidPin 1, .invalidPin 2, .invalidPin 3, .invalidPin 4, .invalidPin 5] ∧
      (authFlowSeq cfg gm sm userId wrongPin [t1, t2, t3, t4, t5]).1 userId =
        some { count := 5, lastAttempt := t5 } ∧
      ∃ r, 1 ≤ r ∧
        authFlow cfg (authFlowSeq cfg gm sm userId wrongPin [t1, t2, t3, t4, t5]).1
          (authFlowSeq cfg gm sm userId wrongPin [t1, t2, t3, t4, t5]).2.1 userId cfg.pin now =
          ((authFlowSeq cfg gm sm userId wrongPin [t1, t2, t3, t4, t5]).1,
           (authFlowSeq cfg gm sm userId wrongPin [t1, t2, t3, t4, t5]).2.1,
           .lockedOut r)) ∧
    (∀ rec, userId ∈ cfg.authorizedUsers → gm userId = some rec →
      MAX_FAILED ≤ rec.count → lockoutMsFor rec.count ≤ now - rec.lastAttempt →
      cfg.pin ≠ [] →
      (authFlow cfg gm sm userId cfg.pin now).2.2 = .success ∧
      (authFlow cfg gm sm userId cfg.pin now).1 userId = none ∧
      (authFlow cfg gm sm userId cfg.pin now).2.1 userId =
        some { authenticatedAt := now, lastActivity := now, workDir := cfg.defaultWorkDir }) := by
  refine ⟨fun pin rec hwl hrec hcnt hwin => ?_,
    fun wrongPin t1 t2 t3 t4 t5 hwl h0 hne hwrong hpne hwin => ?_,
    fun rec hwl hrec hcnt hwin hpne => ?_⟩
  · have hlock : lockoutCheck gm userId now =
        .locked (ceilDiv (lockoutMsFor rec.count - (now - rec.lastAttempt)) 60000) := by
      simp only [lockoutCheck, hrec]
      rw [if_pos hcnt, if_pos hwin]
    constructor
    · rw [authFlow, if_pos hwl, hlock]
    · simp only [ceilDiv]
      omega
  · have hc0 : countOf gm userId = 0 := by simp [countOf, h0]
    have s1 := authFlow_fail_step cfg gm sm userId wrongPin t1 hwl hne hwrong (by rw [hc0]; decide)
    set gm1 := (recordFailedAuth gm userId t1).1 with hgm1
    have hc1 : countOf gm1 userId = 1 := by rw [hgm1, countOf_record, hc0]
    have s2 := authFlow_fail_step cfg gm1 sm userId wrongPin t2 hwl hne hwrong (by rw [hc1]; decide)
    set gm2 := (recordFailedAuth gm1 userId t2).1 with hgm2
    have hc2 : countOf gm2 userId = 2 := by rw [hgm2, countOf_record, hc1]
    have s3 := authFlow_fail_step cfg gm2 sm userId wrongPin t3 hwl hne hwrong (by rw [hc2]; decide)
    set gm3 := (recordFailedAuth gm2 userId t3).1 with hgm3
    have hc3 : countOf gm3 userId = 3 := by rw [hgm3, countOf_record, hc2]
    have s4 := authFlow_fail_step cfg gm3 sm userId wrongPin t4 hwl hne hwrong (by rw [hc3]; decide)
    set gm4 := (recordFailedAuth gm3 userId t4).1 with hgm4
    have hc4 : countOf gm4 userId = 4 := by rw [hgm4, countOf_record, hc3]
    have s5 := authFlow_fail_step cfg gm4 sm userId wrongPin t5 hwl hne hwrong (by rw [hc4]; decide)
    set gm5 := (recordFailedAuth gm4 userId t5).1 with hgm5
    have hl5 : gm5 userId = some { count := 5, lastAttempt := t5 } := by
      rw [hgm5, recordFailedAuth_lookup, hc4]
    have hseq : authFlowSeq cfg gm sm userId wrongPin [t1, t2, t3, t4, t5] =
        (gm5, sm, [.invalidPin 1, .invalidPin 2, .invalidPin 3, .invalidPin 4,
          .invalidPin 5]) := by
      simp [authFlowSeq, s1, s2, s3, s4, s5, hc0, hc1, hc2, hc3, hc4]
    have hlm5 : lockoutMsFor 5 = BASE_LOCKOUT_MS := by decide
    have hlock : lockoutCheck gm5 userId now =
        .locked (ceilDiv (BASE_LOCKOUT_MS - (now - t5)) 60000) := by
      simp only [lockoutCheck, hl5]
      rw [if_pos (by decide), hlm5, if_pos hwin]
    refine ⟨by rw [hseq], by rw [hseq]; exact hl5,
      ceilDiv (BASE_LOCKOUT_MS - (now - t5)) 60000, ?_, ?_⟩
    · simp only [ceilDiv, BASE_LOCKOUT_MS]
      simp only [BASE_LOCKOUT_MS] at hwin
      omega
    · rw [hseq]
      rw [authFlow, if_pos hwl, hlock]
  · have hlk : lockoutCheck gm userId now = .proceed := by
      simp only [lockoutCheck, hrec]
      rw [if_pos hcnt, if_neg (by omega)]
    have hauth : SessionManager.authenticate cfg sm userId cfg.pin now =
        (fun k => if k = userId then
            some { authenticatedAt := now, lastActivity := now, workDir := cfg.defaultWorkDir }
          else sm k, .ok) := by
      rw [SessionManager.authenticate, if_pos hwl, if_neg (by simp), if_neg (by simp)]
    rw [authFlow, if_pos hwl, hlk]
    simp only [if_neg hpne, hauth]
    refine ⟨by trivial, ?_, ?_⟩
    · simp [clearFailedAuth]
    · simp

/-- Witness for C3: identity 42 with whitelist `{42}` and PIN `482913`; a
locked record `{count := 5, lastAttempt := 0}` rejects a request at 1000ms;
five wrong PINs at times 1000..5000 produce counts 1..5 and lock the sixth
attempt at 6000ms even with the correct PIN; at 900000ms the correct PIN
succeeds and clears the record. -/
theorem authGuard_lockout_spec_witness :
    (authFlow cfg42 (fun k => if k = 42 then some { count := 5, lastAttempt := 0 } else none)
      (fun _ => none) 42 [9] 1000 =
      ((fun k => if k = 42 then some { count := 5, lastAttempt := 0 } else none),
       (fun _ => none),
       .lockedOut (ceilDiv (lockoutMsFor 5 - (1000 - 0)) 60000))) ∧
    ((authFlowSeq cfg42 (fun _ => none) (fun _ => none) 42 [0, 0, 0, 0, 0, 0]
      [1000, 2000, 3000, 4000, 5000]).2.2 =
      [.invalidPin 1, .invalidPin 2, .invalidPin 3, .invalidPin 4, .invalidPin 5]) ∧
    ((authFlowSeq cfg42 (fun _ => none) (fun _ => none) 42 [0, 0, 0, 0, 0, 0]
      [1000, 2000, 3000, 4000, 5000]).1 42 = some { count := 5, lastAttempt := 5000 }) ∧
    (∃ r, 1 ≤ r ∧
      authFlow cfg42
        (authFlowSeq cfg42 (fun _ => none) (fun _ => none) 42 [0, 0, 0, 0, 0, 0]
          [1000, 2000, 3000, 4000, 5000]).1
        (authFlowSeq cfg42 (fun _ => none) (fun _ => none) 42 [0, 0, 0, 0, 0, 0]
          [1000, 2000, 3000, 4000, 5000]).2.1 42 [4, 8, 2, 9, 1, 3] 6000 =
        ((authFlowSeq cfg42 (fun _ => none) (fun _ => none) 42 [0, 0, 0, 0, 0, 0]
          [1000, 2000, 3000, 4000, 5000]).1,
         (authFlowSeq cfg42 (fun _ => none) (fun _ => none) 42 [0, 0, 0, 0, 0, 0]
          [1000, 2000, 3000, 4000, 5000]).2.1,
         .lockedOut r)) ∧
    ((authFlow cfg42 (fun k => if k = 42 then some { count := 5, lastAttempt := 0 } else none)
      (fun _ => none) 42 [4, 8, 2, 9, 1, 3] 900000).2.2 = .success) ∧
    ((authFlow cfg42 (fun k => if k = 42 then some { count := 5, lastAttempt := 0 } else none)
      (fun _ => none) 42 [4, 8, 2, 9, 1, 3] 900000).1 42 = none) :=
  ⟨((authGuard_lockout_spec cfg42
      (fun k => if k = 42 then some { count := 5, lastAttempt := 0 } else none)
      (fun _ => none) 42 1000).1 [9] { count := 5, lastAttempt := 0 }
      (by decide) (by decide) (by decide) (by decide)).1,
   ((authGuard_lockout_spec cfg42 (fun _ => none) (fun _ => none) 42 6000).2.1
      [0, 0, 0, 0, 0, 0] 1000 2000 3000 4000 5000
      (by decide) (by decide) (by decide) (by decide) (by decide) (by decide)).1,
   ((authGuard_lockout_spec cfg42 (fun _ => none) (fun _ => none) 42 6000).2.1
      [0, 0, 0, 0, 0, 0] 1000 2000 3000 4000 5000
      (by decide) (by decide) (by decide) (by decide) (by decide) (by decide)).2.1,
   ((authGuard_lockout_spec cfg42 (fun _ => none) (fun _ => none) 42 6000).2.1
      [0, 0, 0, 0, 0, 0] 1000 2000 3000 4000 5000
      (by decide) (by decide) (by decide) (by decide) (by decide) (by decide)).2.2,
   ((authGuard_lockout_spec cfg42
      (fun k => if k = 42 then some { count := 5, lastAttempt := 0 } else none)
      (fun _ => none) 42 900000).2.2 { count := 5, lastAttempt := 0 }
      (by decide) (by decide) (by decide) (by decide) (by decide)).1,
   ((authGuard_lockout_spec cfg42
      (fun k => if k = 42 then some { count := 5, lastAttempt := 0 } else none)
      (fun _ => none) 42 900000).2.2 { count := 5, lastAttempt := 0 }
      (by decide) (by decide) (by decide) (by decide) (by decide)).2.1⟩

/-- Characterization of the backward scan: it returns the prefix of length at
most `n` of the decodable entries matching the hash, in scan order. -/
theorem queryGo_characterization (dec : String → Option AuditEntry) (userHash : String) :
    ∀ (ls : List String) (n : Nat),
      queryGo dec userHash ls n =
        (((ls.filterMap dec).filter (fun e => e.u = userHash)).take n).map projEntry := by
  intro ls
  induction ls with
  | nil => intro n; simp [queryGo]
  | cons l tl ih =>
    intro n
    rw [queryGo]
    cases n with
    | zero => simp
    | succ m =>
      rw [if_neg (Nat.succ_ne_zero m)]
      cases hdec : dec l with
      | none =>
        rw [List.filterMap_cons_none hdec]
        exact ih (m + 1)
      | some e =>
        rw [List.filterMap_cons_some hdec]
        show (if e.u = userHash then projEntry e :: queryGo dec userHash tl (m + 1 - 1)
          else queryGo dec userHash tl (m + 1)) = _
        by_cases hu : e.u = userHash
        · rw [if_pos hu]
          have hfc : (e :: (tl.filterMap dec)).filter (fun x => decide (x.u = userHash)) =
              e :: ((tl.filterMap dec).filter (fun x => decide (x.u = userHash))) := by
            rw [List.filter_cons_of_pos]
            exact decide_eq_true hu
          rw [hfc, List.take_succ_cons, List.map_cons]
          simp only [Nat.add_sub_cancel]
          rw [ih]
        · rw [if_neg hu]
          have hfc : (e :: (tl.filterMap dec)).filter (fun x => decide (x.u = userHash)) =
              (tl.filterMap dec).filter (fun x => decide (x.u = userHash)) := by
            rw [List.filter_cons_of_neg]
            simpa using hu
          rw [hfc]
          exact ih (m + 1)

/-- C7: `queryAudit` scans the lines from the most recent backward, returns at
most `limit` entries — exactly the most recent decodable entries whose stored
hash equals the caller's keyed hash, in scan order — and skips lines that fail
to decrypt or parse without aborting; a freshly logged entry for the caller is
returned first. -/
theorem auditLog_query_spec (C : AuditCipher) (lines : List String)
    (userId : String) (limit : Nat) :
    (queryAudit C lines userId limit =
      (((lines.reverse.filterMap C.decryptLine).filter
        (fun e => e.u = C.hash userId)).take limit).map projEntry) ∧
    ((queryAudit C lines userId limit).length ≤ limit) ∧
    (∀ r ∈ queryAudit C lines userId limit,
      ∃ e, e ∈ lines.reverse.filterMap C.decryptLine ∧ e.u = C.hash userId ∧
        r = projEntry e) ∧
    (∀ xs c ys, C.decryptLine c = none →
      queryAudit C (xs ++ c :: ys) userId limit = queryAudit C (xs ++ ys) userId limit) ∧
    (∀ tstamp action data,
      C.decryptLine (C.encrypt (C.ser { t := tstamp, u := C.hash userId, a := action, d := data })) =
        some { t := tstamp, u := C.hash userId, a := action, d := data } →
      1 ≤ limit →
      queryAudit C (logAudit C lines userId tstamp action data) userId limit =
        { timestamp := tstamp, action := action, data := data } ::
          queryAudit C lines userId (limit - 1)) := by
  refine ⟨?_, ?_, ?_, fun xs c ys hc => ?_, fun tstamp action data hdec hlim => ?_⟩
  · exact queryGo_characterization C.decryptLine (C.hash userId) lines.reverse limit
  · simp only [queryAudit]
    rw [queryGo_characterization C.decryptLine (C.hash userId) lines.reverse limit]
    rw [List.length_map, List.length_take]
    exact Nat.min_le_left _ _
  · intro r hr
    simp only [queryAudit] at hr
    rw [queryGo_characterization C.decryptLine (C.hash userId) lines.reverse limit] at hr
    obtain ⟨e, hmem, hproj⟩ := List.mem_map.mp hr
    have hfil := List.take_subset limit _ hmem
    obtain ⟨hfm, hdec⟩ := List.mem_filter.mp hfil
    exact ⟨e, hfm, of_decide_eq_true hdec, hproj.symm⟩
  · have hsame : (xs ++ c :: ys).reverse.filterMap C.decryptLine =
        (xs ++ ys).reverse.filterMap C.decryptLine := by
      simp [List.reverse_append, List.filterMap_append, List.filterMap_cons, hc]
    simp only [queryAudit]
    rw [queryGo_characterization, queryGo_characterization, hsame]
  · cases limit with
    | zero => exact absurd hlim (by decide)
    | succ m =>
      simp only [queryAudit, logAudit, List.reverse_append, List.reverse_cons,
        List.reverse_nil, List.nil_append, List.singleton_append]
      rw [queryGo]
      rw [if_neg (Nat.succ_ne_zero m)]
      rw [hdec]
      show (if ({ t := tstamp, u := C.hash userId, a := action, d := data } : AuditEntry).u =
          C.hash userId then
          projEntry { t := tstamp, u := C.hash userId, a := action, d := data } ::
            queryGo C.decryptLine (C.hash userId) lines.reverse (m + 1 - 1)
        else queryGo C.decryptLine (C.hash userId) lines.reverse (m + 1)) = _
      rw [if_pos rfl]
      simp only [Nat.add_sub_cancel]
      rfl

/-- Witness for C7 on the table-based toy audit cipher: results are bounded by
the limit, a corrupt line in the middle of the log is transparent to the
query, and a freshly logged entry for the caller is returned first. -/
theorem auditLog_query_spec_witness :
    ((queryAudit toyAudit ["enc1", "enc1"] "42" 1).length ≤ 1) ∧
    (queryAudit toyAudit ["enc1", "junk", "enc1"] "42" 5 =
      queryAudit toyAudit ["enc1", "enc1"] "42" 5) ∧
    (queryAudit toyAudit (logAudit toyAudit [] "42" "t1" "act1" none) "42" 3 =
      { timestamp := "t1", action := "act1", data := none } ::
        queryAudit toyAudit [] "42" 2) :=
  ⟨(auditLog_query_spec toyAudit ["enc1", "enc1"] "42" 1).2.1,
   (auditLog_query_spec toyAudit [] "42" 5).2.2.2.1 ["enc1"] "junk" ["enc1"] (by decide),
   (auditLog_query_spec toyAudit [] "42" 3).2.2.2.2 "t1" "act1" none (by decide) (by decide)⟩
